import Mathlib

/-!
Shallow embedding of the RISC-V code generator of `src/codegen/riscv.cpp`
(toyc compiler, class `RISCVCodeGenerator`), together with theorems settling
the specification claims about it.

The embedding translates each visitor method into a Lean function threading an
explicit `CodeGenState` (output buffer, frame-offset counter, local-variable
table, label counter).  Emitted assembly lines are modelled by the `Instr`
type; `render` recovers the exact text the C++ code appends to its output
string.  The constant table `constantValues` (a read-only member never written
in this translation unit) and the `optimizationsEnabled` flag are passed as
parameters.
-/

namespace ToyC

/-- Binary operator tags of `BinaryExpression` (`ADD` .. `OR`). -/
inductive BinOp where
  | add | sub | mul | div | mod
  | lt | le | gt | ge | eq | ne
  | and | or
deriving DecidableEq

/-- Unary operator tags of `UnaryExpression` (`PLUS`, `MINUS`, `NOT`). -/
inductive UnOp where
  | plus | minus | not
deriving DecidableEq

mutual
/-- Expression nodes of the AST: `NumberLiteral`, `Identifier`,
`UnaryExpression`, `BinaryExpression`, `FunctionCall`. -/
inductive Expression where
  | num (value : Int)
  | ident (name : String)
  | unary (op : UnOp) (operand : Expression)
  | binary (op : BinOp) (left : Expression) (right : Expression)
  | call (functionName : String) (arguments : ExpressionList)

/-- The ordered argument list of a `FunctionCall` (an inlined list type so
that the visitors below are structurally recursive). -/
inductive ExpressionList where
  | nil
  | cons (head : Expression) (tail : ExpressionList)
end

mutual
/-- Statement nodes of the AST. -/
inductive Statement where
  | decl (name : String) (initializer : Option Expression)
  | assign («variable» : String) (value : Expression)
  | block (statements : StatementList)
  | ifStmt (condition : Expression) (thenStatement : Statement)
      (elseStatement : StatementOpt)
  | whileStmt (condition : Expression) (body : Statement)
  | breakStmt
  | continueStmt
  | returnStmt (value : Option Expression)
  | exprStmt (expression : Expression)

/-- The optional `else` branch of an `IfStatement` (an inlined option type so
that the visitors below are structurally recursive). -/
inductive StatementOpt where
  | none
  | some (s : Statement)

/-- The ordered statement list of a `Block`. -/
inductive StatementList where
  | nil
  | cons (head : Statement) (tail : StatementList)
end

/-- Number of arguments of a call (`node.arguments.size()`). -/
def ExpressionList.size : ExpressionList → Nat
  | .nil => 0
  | .cons _ tail => tail.size + 1

/-- One emitted line of assembly.  `raw s` is an instruction emitted verbatim
(including interpolated operands); `addiSp n` is the stack-pointer adjustment
`addi sp, sp, n` (kept structured so that stack-depth accounting can read the
amount back off the instruction); `label n` is a label line `n:` as produced
by `emitLabel`. -/
inductive Instr where
  | raw (text : String)
  | addiSp (imm : Int)
  | label (name : String)
deriving DecidableEq

/-- The text of one emitted line, exactly as the C++ code builds it. -/
def render : Instr → String
  | .raw s => s
  | .addiSp n => "addi sp, sp, " ++ toString n
  | .label n => n ++ ":"

/-- Modelled from the spec (§3): the function-signature table maps a function
name to arity/signature metadata.  The generator stores the table but never
reads it in this translation unit, so only the arity field is represented. -/
structure FunctionInfo where
  arity : Nat
deriving DecidableEq

/-- The mutable members of `RISCVCodeGenerator` threaded through the visitors:
`output`, `stackOffset`, `localVariables`, `labelCounter`, `currentFunction`,
`functions`.  The local-variable map is an association list whose most recent
binding wins on lookup, matching `unordered_map` assignment/lookup.
`issuedLabels` is a history variable recording, for specification purposes
only, the strings returned by `newLabel` during the current generation run;
it influences no emitted code. -/
structure CodeGenState where
  output : List Instr
  stackOffset : Int
  localVariables : List (String × Int)
  labelCounter : Nat
  currentFunction : String
  functions : List (String × FunctionInfo)
  issuedLabels : List String
deriving DecidableEq

/-- Embeds `RISCVCodeGenerator::emit`: append one instruction line to the output. -/
def emit (st : CodeGenState) (i : Instr) : CodeGenState :=
  { st with output := st.output ++ [i] }

/-- Embeds `RISCVCodeGenerator::emitLabel`: append a `label:` line to the output. -/
def emitLabel (st : CodeGenState) (l : String) : CodeGenState :=
  { st with output := st.output ++ [Instr.label l] }

/-- Embeds `RISCVCodeGenerator::newLabel`: return `pre + to_string(labelCounter++)`.
The returned name is also recorded in the `issuedLabels` history. -/
def newLabel (st : CodeGenState) (pre : String) : String × CodeGenState :=
  (pre ++ toString st.labelCounter,
   { st with
       labelCounter := st.labelCounter + 1,
       issuedLabels := st.issuedLabels ++ [pre ++ toString st.labelCounter] })

/-- Embeds `RISCVCodeGenerator::isConstantExpression`.  The argument is an
`Expression*`, hence `Option Expression` (`none` models a null pointer). -/
def isConstantExpression (c : String → Option Int) :
    Option Expression → Bool
  | Option.none => false
  | Option.some e =>
    match e with
    | .num _ => true
    | .ident n => (c n).isSome
    | _ => false

/-- Embeds `RISCVCodeGenerator::evaluateConstantExpression`: the literal's value, or
the constant table's value for a known identifier, else the default `0`
(also for a null pointer, which both `dynamic_cast`s send to the final
`return 0`). -/
def evaluateConstantExpression (c : String → Option Int) :
    Option Expression → Int
  | Option.some (.num v) => v
  | Option.some (.ident n) =>
    match c n with
    | Option.some v => v
    | Option.none => 0
  | _ => 0

/-- Embeds `RISCVCodeGenerator::generateEpilogue`. -/
def generateEpilogue (st : CodeGenState) : CodeGenState :=
  let st := emit st (.raw "lw ra, -4(fp)")
  let st := emit st (.raw "lw fp, -8(fp)")
  let st := emit st (.addiSp 8)
  emit st (.raw "ret")

/-- Embeds `RISCVCodeGenerator::generatePrologue`.  The C++ builds the first line as
`"addi sp, sp, -" + to_string(localSize)`, i.e. the adjustment `-localSize`. -/
def generatePrologue (st : CodeGenState) (funcName : String)
    (localSize : Int) : CodeGenState :=
  let st := emitLabel st funcName
  let st := emit st (.addiSp (-localSize))
  let st := emit st (.raw ("sw ra, " ++ toString (localSize - 4) ++ "(sp)"))
  let st := emit st (.raw ("sw fp, " ++ toString (localSize - 8) ++ "(sp)"))
  emit st (.raw ("addi fp, sp, " ++ toString localSize))

mutual
/-- The expression visitors `visit(NumberLiteral&)`, `visit(Identifier&)`,
`visit(UnaryExpression&)`, `visit(BinaryExpression&)`, `visit(FunctionCall&)`.
In the `binary` case with optimizations enabled, the body of
`RISCVCodeGenerator::optimizeConstantFolding(node)` is inlined at its only
call site (the C++ `visit` returns unconditionally right after that call);
each C++ `return` inside it corresponds to one branch result here. -/
def visitExpr (opt : Bool) (c : String → Option Int) (st : CodeGenState) :
    Expression → CodeGenState
  | .num value =>
      let st := emit st (.raw ("li t0, " ++ toString value))
      let st := emit st (.addiSp (-4))
      emit st (.raw "sw t0, 0(sp)")
  | .ident name =>
      match List.lookup name st.localVariables with
      | Option.some off =>
          let st := emit st (.raw ("lw t0, " ++ toString off ++ "(fp)"))
          let st := emit st (.addiSp (-4))
          emit st (.raw "sw t0, 0(sp)")
      | Option.none =>
          let st := emit st (.raw ("la t0, " ++ name))
          let st := emit st (.raw "lw t0, 0(t0)")
          let st := emit st (.addiSp (-4))
          emit st (.raw "sw t0, 0(sp)")
  | .unary op operand =>
      let st := visitExpr opt c st operand
      let st := emit st (.raw "lw t0, 0(sp)")
      let st :=
        match op with
        | .plus => st
        | .minus => emit st (.raw "neg t0, t0")
        | .not => emit st (.raw "seqz t0, t0")
      emit st (.raw "sw t0, 0(sp)")
  | .binary op left right =>
      if opt then
        -- optimizeConstantFolding(node); return;
        if isConstantExpression c (Option.some left)
            && isConstantExpression c (Option.some right) then
          let leftVal := evaluateConstantExpression c (Option.some left)
          let rightVal := evaluateConstantExpression c (Option.some right)
          match op with
          | .add =>
              let st := emit st (.raw ("li t0, " ++ toString (leftVal + rightVal)))
              let st := emit st (.addiSp (-4))
              emit st (.raw "sw t0, 0(sp)")
          | .sub =>
              let st := emit st (.raw ("li t0, " ++ toString (leftVal - rightVal)))
              let st := emit st (.addiSp (-4))
              emit st (.raw "sw t0, 0(sp)")
          | .mul =>
              let st := emit st (.raw ("li t0, " ++ toString (leftVal * rightVal)))
              let st := emit st (.addiSp (-4))
              emit st (.raw "sw t0, 0(sp)")
          | .div =>
              if rightVal ≠ 0 then
                let st := emit st (.raw ("li t0, " ++ toString (Int.tdiv leftVal rightVal)))
                let st := emit st (.addiSp (-4))
                emit st (.raw "sw t0, 0(sp)")
              else st  -- avoid division by zero: bare return
          | .mod =>
              if rightVal ≠ 0 then
                let st := emit st (.raw ("li t0, " ++ toString (Int.tmod leftVal rightVal)))
                let st := emit st (.addiSp (-4))
                emit st (.raw "sw t0, 0(sp)")
              else st
          | _ => st  -- other operators are not optimized: bare return
        else if isConstantExpression c (Option.some right) then
          let rightVal := evaluateConstantExpression c (Option.some right)
          if op = BinOp.add ∧ rightVal = 0 then
            visitExpr opt c st left
          else if op = BinOp.mul ∧ rightVal = 1 then
            visitExpr opt c st left
          else if op = BinOp.mul ∧ rightVal = 0 then
            let st := emit st (.raw "li t0, 0")
            let st := emit st (.addiSp (-4))
            emit st (.raw "sw t0, 0(sp)")
          else st
        else st
      else
        -- the non-optimized code-generation path
        let st := visitExpr opt c st left
        let st := visitExpr opt c st right
        let st := emit st (.raw "lw t1, 0(sp)")
        let st := emit st (.addiSp 4)
        let st := emit st (.raw "lw t0, 0(sp)")
        let st :=
          match op with
          | .add => emit st (.raw "add t0, t0, t1")
          | .sub => emit st (.raw "sub t0, t0, t1")
          | .mul => emit st (.raw "mul t0, t0, t1")
          | .div => emit st (.raw "div t0, t0, t1")
          | .mod => emit st (.raw "rem t0, t0, t1")
          | .lt => emit st (.raw "slt t0, t0, t1")
          | .le => emit (emit st (.raw "slt t2, t1, t0")) (.raw "xori t0, t2, 1")
          | .gt => emit st (.raw "slt t0, t1, t0")
          | .ge => emit (emit st (.raw "slt t2, t0, t1")) (.raw "xori t0, t2, 1")
          | .eq => emit (emit st (.raw "sub t0, t0, t1")) (.raw "seqz t0, t0")
          | .ne => emit (emit st (.raw "sub t0, t0, t1")) (.raw "snez t0, t0")
          | .and => emit st (.raw "and t0, t0, t1")
          | .or => emit st (.raw "or t0, t0, t1")
        emit st (.raw "sw t0, 0(sp)")
  | .call functionName arguments =>
      let st := visitArgs opt c st arguments
      let st := emit st (.raw ("call " ++ functionName))
      let st := emit st (.addiSp (4 * (arguments.size : Int)))
      let st := emit st (.addiSp (-4))
      emit st (.raw "sw a0, 0(sp)")

/-- The argument loop of `visit(FunctionCall&)`. -/
def visitArgs (opt : Bool) (c : String → Option Int) (st : CodeGenState) :
    ExpressionList → CodeGenState
  | .nil => st
  | .cons e rest => visitArgs opt c (visitExpr opt c st e) rest
end

mutual
/-- The statement visitors of `RISCVCodeGenerator`. -/
def visitStmt (opt : Bool) (c : String → Option Int) (st : CodeGenState) :
    Statement → CodeGenState
  | .decl name initializer =>
      let st :=
        match initializer with
        | Option.some e =>
            let st := visitExpr opt c st e
            let st := emit st (.raw "lw t0, 0(sp)")
            emit st (.addiSp 4)
        | Option.none => emit st (.raw "li t0, 0")
      let newOffset : Int := st.stackOffset - 4
      let st := { st with
                    stackOffset := newOffset,
                    localVariables := (name, newOffset) :: st.localVariables }
      emit st (.raw ("sw t0, " ++ toString newOffset ++ "(fp)"))
  | .assign target value =>
      let st := visitExpr opt c st value
      let st := emit st (.raw "lw t0, 0(sp)")
      let st := emit st (.addiSp 4)
      match List.lookup target st.localVariables with
      | Option.some off => emit st (.raw ("sw t0, " ++ toString off ++ "(fp)"))
      | Option.none =>
          emit (emit st (.raw ("la t1, " ++ target))) (.raw "sw t0, 0(t1)")
  | .block statements => visitStmtList opt c st statements
  | .ifStmt condition thenStatement elseStatement =>
      let p := newLabel st "else"
      let elseLabel := p.1
      let p2 := newLabel p.2 "endif"
      let endLabel := p2.1
      let st := p2.2
      let st := visitExpr opt c st condition
      let st := emit st (.raw "lw t0, 0(sp)")
      let st := emit st (.addiSp 4)
      let st := emit st (.raw ("beqz t0, " ++ elseLabel))
      let st := visitStmt opt c st thenStatement
      let st := emit st (.raw ("j " ++ endLabel))
      let st := emitLabel st elseLabel
      let st := visitStmtOpt opt c st elseStatement
      emitLabel st endLabel
  | .whileStmt condition body =>
      let p := newLabel st "loop"
      let loopLabel := p.1
      let p2 := newLabel p.2 "endloop"
      let endLabel := p2.1
      let st := p2.2
      let st := emitLabel st loopLabel
      let st := visitExpr opt c st condition
      let st := emit st (.raw "lw t0, 0(sp)")
      let st := emit st (.addiSp 4)
      let st := emit st (.raw ("beqz t0, " ++ endLabel))
      let st := visitStmt opt c st body
      let st := emit st (.raw ("j " ++ loopLabel))
      emitLabel st endLabel
  | .breakStmt => emit st (.raw "j break_label")
  | .continueStmt => emit st (.raw "j continue_label")
  | .returnStmt value =>
      let st :=
        match value with
        | Option.some e =>
            let st := visitExpr opt c st e
            let st := emit st (.raw "lw a0, 0(sp)")
            emit st (.addiSp 4)
        | Option.none => emit st (.raw "li a0, 0")
      generateEpilogue st
  | .exprStmt expression =>
      let st := visitExpr opt c st expression
      emit st (.addiSp 4)  -- pop the expression result

/-- The optional-else traversal of `visit(IfStatement&)`. -/
def visitStmtOpt (opt : Bool) (c : String → Option Int) (st : CodeGenState) :
    StatementOpt → CodeGenState
  | .none => st
  | .some s => visitStmt opt c st s

/-- The statement loop of `visit(Block&)`. -/
def visitStmtList (opt : Bool) (c : String → Option Int) (st : CodeGenState) :
    StatementList → CodeGenState
  | .nil => st
  | .cons s rest => visitStmtList opt c (visitStmt opt c st s) rest
end

/-- A `FunctionDefinition` node: name and body block. -/
structure FunctionDefinition where
  name : String
  body : Statement

/-- A `CompilationUnit` node: the ordered function list. -/
structure CompilationUnit where
  functions : List FunctionDefinition

/-- Embeds `visit(FunctionDefinition&)`. -/
def visitFunctionDefinition (opt : Bool) (c : String → Option Int)
    (st : CodeGenState) (node : FunctionDefinition) : CodeGenState :=
  let st := { st with
                currentFunction := node.name,
                localVariables := [],
                stackOffset := 0 }
  let localSize : Int := 8  -- ra, fp
  let st := generatePrologue st node.name localSize
  let st := visitStmt opt c st node.body
  generateEpilogue st

/-- Embeds `visit(CompilationUnit&)`. -/
def visitCompilationUnit (opt : Bool) (c : String → Option Int)
    (st : CodeGenState) (node : CompilationUnit) : CodeGenState :=
  node.functions.foldl (visitFunctionDefinition opt c) st

/-- Embeds `RISCVCodeGenerator::generate`: clear the output, store the function
table, zero `stackOffset` and `labelCounter`, emit the section directives and
traverse the unit.  The `issuedLabels` history starts empty because it records
the labels of the current run.  Returns the final generator state. -/
def generateRun (opt : Bool) (c : String → Option Int) (st : CodeGenState)
    (unit : CompilationUnit) (funcTable : List (String × FunctionInfo)) :
    CodeGenState :=
  let st := { st with
                output := [],
                functions := funcTable,
                stackOffset := 0,
                labelCounter := 0,
                issuedLabels := [] }
  let st := emit st (.raw ".data")
  let st := emit st (.raw ".text")
  let st := emit st (.raw ".global main")
  visitCompilationUnit opt c st unit

/-- The string returned by `generate` (each line terminated by a newline,
exactly as `output += instruction + "\n"` accumulates it). -/
def generate (opt : Bool) (c : String → Option Int) (st : CodeGenState)
    (unit : CompilationUnit) (funcTable : List (String × FunctionInfo)) :
    String :=
  (generateRun opt c st unit funcTable).output.foldl
    (fun acc i => acc ++ render i ++ "\x0a") ""

/-- A generator state with everything empty, used as a concrete start state. -/
def initState : CodeGenState :=
  { output := [], stackOffset := 0, localVariables := [], labelCounter := 0,
    currentFunction := "", functions := [], issuedLabels := [] }

/-- The stack-pointer adjustment (in bytes) performed by one emitted
instruction: `addi sp, sp, n` moves `sp` by `n`; no other emitted instruction
writes `sp`. -/
def spDelta : Instr → Int
  | .addiSp n => n
  | _ => 0

/-- Net stack-pointer movement of an instruction sequence. -/
def netSp (l : List Instr) : Int :=
  (l.map spDelta).sum

mutual
/-- Holds (as `true`) iff the statement contains no `return` statement anywhere. -/
def noReturn : Statement → Bool
  | .decl _ _ => true
  | .assign _ _ => true
  | .block ss => noReturnList ss
  | .ifStmt _ t e => noReturn t && noReturnOpt e
  | .whileStmt _ b => noReturn b
  | .breakStmt => true
  | .continueStmt => true
  | .returnStmt _ => false
  | .exprStmt _ => true

/-- Extends `noReturn` to an optional else branch. -/
def noReturnOpt : StatementOpt → Bool
  | .none => true
  | .some s => noReturn s

/-- Extends `noReturn` to a statement list. -/
def noReturnList : StatementList → Bool
  | .nil => true
  | .cons s rest => noReturn s && noReturnList rest
end

/-- The label-name stems the generator ever passes to `newLabel`. -/
def labelStems : List String := ["else", "endif", "loop", "endloop"]

/-- Invariant relating the label counter to the labels issued so far in the
current run: the issued names are pairwise distinct, the counter counts them,
and each is some stem followed by the decimal form of an already-consumed
counter value. -/
def LabelInv (st : CodeGenState) : Prop :=
  st.issuedLabels.Nodup ∧
  st.issuedLabels.length = st.labelCounter ∧
  ∀ l ∈ st.issuedLabels,
    ∃ p, p ∈ labelStems ∧ ∃ k, k < st.labelCounter ∧ l = p ++ toString k

/-- Says that `st'` differs from `st` at most in the output buffer. -/
def OnlyOutput (st st' : CodeGenState) : Prop :=
  st' = { st with output := st'.output }

/-- One lowering step seen through the label generator: the label counter
never decreases and the label invariant is preserved. -/
def LabelStep (st st' : CodeGenState) : Prop :=
  st.labelCounter ≤ st'.labelCounter ∧ (LabelInv st → LabelInv st')

/-- The numeric value of a decimal digit character. -/
def charVal (ch : Char) : Nat := ch.toNat - 48

/-- Decode a most-significant-first decimal digit string. -/
def readNat (cs : List Char) : Nat :=
  cs.foldl (fun a ch => 10 * a + charVal ch) 0

/-- Number of decimal digits of a natural number. -/
def digitCount (n : Nat) : Nat :=
  if n < 10 then 1 else digitCount (n / 10) + 1
decreasing_by exact Nat.div_lt_self (by omega) (by omega)

/-- The specification's expected constant-fold value: `a op b` computed with
ordinary integer arithmetic (division and remainder truncating toward zero as
C++ `/` and `%` do). -/
def specFoldValue (op : BinOp) (a b : Int) : Int :=
  match op with
  | .add => a + b
  | .sub => a - b
  | .mul => a * b
  | .div => Int.tdiv a b
  | .mod => Int.tmod a b
  | _ => 0

/-- The run-time value computed by the emitted `and t0, t0, t1` instruction:
RISC-V `and` is the bitwise conjunction of the two operand words. -/
def riscvAnd (a b : Int) : Int := Int.land a b

/-- Holds (as `true`) iff the expression is an identifier present in the known-constants
table (the one shape on which a constant-folded operand differs from the
expression's own lowering). -/
def knownConstIdent (c : String → Option Int) : Expression → Bool
  | .ident n => (c n).isSome
  | _ => false

/-- An empty known-constants table. -/
def constNone : String → Option Int := fun _ => Option.none

/-- A known-constants table binding only `k` to 5. -/
def constK : String → Option Int :=
  fun n => if n = "k" then Option.some 5 else Option.none

/-! ## State-shape lemmas: expression lowering touches only the output -/

theorem onlyOutput_step {st v : CodeGenState}
    (h : v = { st with output := v.output }) (l : List Instr) :
    { v with output := l } = { st with output := l } := by
  rw [h]

theorem onlyOutput_trans {st v1 v2 : CodeGenState}
    (h1 : v1 = { st with output := v1.output })
    (h2 : v2 = { v1 with output := v2.output }) :
    v2 = { st with output := v2.output } :=
  h2.trans (onlyOutput_step h1 _)

mutual
theorem visitExpr_onlyOutput (opt : Bool) (c : String → Option Int)
    (st : CodeGenState) (e : Expression) :
    visitExpr opt c st e = { st with output := (visitExpr opt c st e).output } := by
  cases e with
  | num v => rfl
  | ident n =>
      rw [visitExpr.eq_def]
      dsimp only
      split <;> rfl
  | unary op operand =>
      rw [visitExpr.eq_def]
      dsimp only
      have h := visitExpr_onlyOutput opt c st operand
      cases op <;> exact onlyOutput_step h _
  | binary op left right =>
      rw [visitExpr]
      split
      · -- optimizations enabled: inlined optimizeConstantFolding
        split
        · -- both operands constant
          dsimp only
          split <;> first | rfl | (split <;> rfl)
        · -- not both constant
          split
          · -- right operand constant
            dsimp only
            split
            · exact visitExpr_onlyOutput opt c st left
            · split
              · exact visitExpr_onlyOutput opt c st left
              · split
                · rfl
                · rfl
          · rfl
      · -- non-optimized path
        have h1 := visitExpr_onlyOutput opt c st left
        have h2 := visitExpr_onlyOutput opt c (visitExpr opt c st left) right
        cases op <;> exact onlyOutput_step (onlyOutput_trans h1 h2) _
  | call f args =>
      rw [visitExpr]
      exact onlyOutput_step (visitArgs_onlyOutput opt c st args) _

theorem visitArgs_onlyOutput (opt : Bool) (c : String → Option Int)
    (st : CodeGenState) (es : ExpressionList) :
    visitArgs opt c st es = { st with output := (visitArgs opt c st es).output } := by
  cases es with
  | nil => rfl
  | cons e rest =>
      rw [visitArgs]
      exact onlyOutput_trans (visitExpr_onlyOutput opt c st e)
        (visitArgs_onlyOutput opt c (visitExpr opt c st e) rest)
end

/-! ## Net stack-pointer accounting -/

theorem netSp_append (a b : List Instr) : netSp (a ++ b) = netSp a + netSp b := by
  simp [netSp]

theorem netSp_emit (st : CodeGenState) (i : Instr) :
    netSp (emit st i).output = netSp st.output + spDelta i := by
  simp [emit, netSp]

theorem netSp_emitLabel (st : CodeGenState) (l : String) :
    netSp (emitLabel st l).output = netSp st.output := by
  simp [emitLabel, netSp, spDelta]

theorem newLabel_output (st : CodeGenState) (pre : String) :
    (newLabel st pre).2.output = st.output := rfl

mutual
theorem visitExpr_netSp (c : String → Option Int) (st : CodeGenState)
    (e : Expression) :
    netSp (visitExpr false c st e).output = netSp st.output + (-4) := by
  cases e with
  | num v => simp only [visitExpr, netSp_emit, spDelta]; omega
  | ident n =>
      rw [visitExpr.eq_def]
      dsimp only
      split <;> (simp only [netSp_emit, spDelta]; omega)
  | unary op operand =>
      rw [visitExpr.eq_def]
      dsimp only
      have h := visitExpr_netSp c st operand
      cases op <;> (simp only [netSp_emit, spDelta, h]; omega)
  | binary op left right =>
      rw [visitExpr]
      rw [if_neg (by decide : ¬ (false = true))]
      have h1 := visitExpr_netSp c st left
      have h2 := visitExpr_netSp c (visitExpr false c st left) right
      cases op <;> (simp only [netSp_emit, spDelta, h1, h2]; omega)
  | call f args =>
      rw [visitExpr]
      have h := visitArgs_netSp c st args
      simp only [netSp_emit, spDelta, h]
      omega

theorem visitArgs_netSp (c : String → Option Int) (st : CodeGenState)
    (es : ExpressionList) :
    netSp (visitArgs false c st es).output
      = netSp st.output - 4 * (es.size : Int) := by
  cases es with
  | nil => simp [visitArgs, ExpressionList.size]
  | cons e rest =>
      rw [visitArgs]
      have h1 := visitExpr_netSp c st e
      have h2 := visitArgs_netSp c (visitExpr false c st e) rest
      rw [h2, h1]
      simp only [ExpressionList.size]
      omega
end

mutual
theorem visitStmt_netSp (c : String → Option Int) (st : CodeGenState)
    (s : Statement) (h : noReturn s = true) :
    netSp (visitStmt false c st s).output = netSp st.output := by
  cases s with
  | decl name initializer =>
      cases initializer with
      | none => rw [visitStmt]; simp only [netSp_emit, spDelta]; omega
      | some e =>
          rw [visitStmt]
          simp only [netSp_emit, spDelta, visitExpr_netSp c st e]
          omega
  | assign target value =>
      rw [visitStmt]
      have hv := visitExpr_netSp c st value
      split <;> (simp only [netSp_emit, spDelta, hv]; omega)
  | block statements =>
      rw [visitStmt]
      exact visitStmtList_netSp c st statements (by simpa [noReturn] using h)
  | ifStmt condition thenStatement elseStatement =>
      rw [visitStmt]
      simp only [noReturn, Bool.and_eq_true] at h
      have iht : ∀ st', netSp (visitStmt false c st' thenStatement).output
          = netSp st'.output := fun st' => visitStmt_netSp c st' thenStatement h.1
      have ihe : ∀ st', netSp (visitStmtOpt false c st' elseStatement).output
          = netSp st'.output := fun st' => visitStmtOpt_netSp c st' elseStatement h.2
      simp only [netSp_emitLabel, ihe, netSp_emit, iht, spDelta, newLabel_output,
        visitExpr_netSp]
      omega
  | whileStmt condition body =>
      rw [visitStmt]
      simp only [noReturn] at h
      have ihb : ∀ st', netSp (visitStmt false c st' body).output
          = netSp st'.output := fun st' => visitStmt_netSp c st' body h
      simp only [netSp_emitLabel, netSp_emit, ihb, spDelta, newLabel_output,
        visitExpr_netSp]
      omega
  | breakStmt => simp only [visitStmt, netSp_emit, spDelta]; omega
  | continueStmt => simp only [visitStmt, netSp_emit, spDelta]; omega
  | returnStmt value => simp [noReturn] at h
  | exprStmt expression =>
      rw [visitStmt]
      simp only [netSp_emit, spDelta, visitExpr_netSp c st expression]
      omega

theorem visitStmtOpt_netSp (c : String → Option Int) (st : CodeGenState)
    (so : StatementOpt) (h : noReturnOpt so = true) :
    netSp (visitStmtOpt false c st so).output = netSp st.output := by
  cases so with
  | none => rfl
  | some s =>
      rw [visitStmtOpt]
      exact visitStmt_netSp c st s (by simpa [noReturnOpt] using h)

theorem visitStmtList_netSp (c : String → Option Int) (st : CodeGenState)
    (ss : StatementList) (h : noReturnList ss = true) :
    netSp (visitStmtList false c st ss).output = netSp st.output := by
  cases ss with
  | nil => rfl
  | cons s rest =>
      rw [visitStmtList]
      simp only [noReturnList, Bool.and_eq_true] at h
      rw [visitStmtList_netSp c _ rest h.2, visitStmt_netSp c st s h.1]
end

/-! ## Decimal representation: `toString` on `Nat` is injective -/

theorem charVal_digitChar (k : Nat) (hk : k < 10) :
    charVal (Nat.digitChar k) = k := by
  interval_cases k <;> rfl

theorem readNat_core (fuel : Nat) : ∀ (n a : Nat) (ds : List Char), n < fuel →
    List.foldl (fun acc ch => 10 * acc + charVal ch) a
        (Nat.toDigitsCore 10 fuel n ds)
      = List.foldl (fun acc ch => 10 * acc + charVal ch)
          (a * 10 ^ digitCount n + n) ds := by
  induction fuel with
  | zero => intro n a ds h; omega
  | succ f ih =>
      intro n a ds h
      rw [Nat.toDigitsCore]
      by_cases hz : n / 10 = 0
      · rw [if_pos hz]
        have hn : n < 10 := by
          by_contra hcon
          have : 0 < n / 10 := Nat.div_pos (by omega) (by omega)
          omega
        rw [List.foldl_cons]
        rw [charVal_digitChar _ (Nat.mod_lt _ (by omega))]
        have hd : digitCount n = 1 := by rw [digitCount, if_pos hn]
        rw [hd, Nat.mod_eq_of_lt hn, pow_one]
        congr 1
        ring
      · rw [if_neg hz]
        have hn10 : 10 ≤ n := by
          by_contra hcon
          exact hz (Nat.div_eq_of_lt (by omega))
        have hlt : n / 10 < f :=
          lt_of_lt_of_le (Nat.div_lt_self (by omega) (by omega)) (by omega)
        rw [ih (n / 10) a (Nat.digitChar (n % 10) :: ds) hlt]
        rw [List.foldl_cons]
        rw [charVal_digitChar _ (Nat.mod_lt _ (by omega))]
        have hd : digitCount n = digitCount (n / 10) + 1 := by
          rw [digitCount, if_neg (by omega)]
        rw [hd, pow_succ]
        congr 1
        have hmod := Nat.div_add_mod n 10
        have hkey : 10 * (a * 10 ^ digitCount (n / 10))
            = a * (10 ^ digitCount (n / 10) * 10) := by ring
        omega

theorem readNat_toDigits (n : Nat) : readNat (Nat.toDigits 10 n) = n := by
  unfold readNat Nat.toDigits
  rw [readNat_core (n + 1) n 0 [] (Nat.lt_succ_self n)]
  simp

theorem toString_nat_data (n : Nat) :
    (toString n).data = Nat.toDigits 10 n := rfl

theorem toString_nat_data_inj {m n : Nat}
    (h : (toString m).data = (toString n).data) : m = n := by
  rw [toString_nat_data, toString_nat_data] at h
  have := congrArg readNat h
  rwa [readNat_toDigits, readNat_toDigits] at this

theorem take4_append (l x : List Char) (hl : 4 ≤ l.length) :
    (l ++ x).take 4 = l.take 4 := by
  rw [List.take_append_eq_append_take]
  have h0 : 4 - l.length = 0 := by omega
  rw [h0]
  simp

/-- Two label names built from the stems the generator uses coincide only
when both the stem and the counter value coincide. -/
theorem stems_append_inj :
    ∀ p1, p1 ∈ labelStems → ∀ p2, p2 ∈ labelStems → ∀ m n : Nat,
      p1 ++ toString m = p2 ++ toString n → p1 = p2 ∧ m = n := by
  intro p1 h1 p2 h2 m n h
  have hd : p1.data ++ (toString m).data = p2.data ++ (toString n).data := by
    simpa using congrArg String.data h
  have hp : p1 = p2 := by
    fin_cases h1 <;> fin_cases h2 <;>
      first
        | rfl
        | (exfalso
           have ht : _ = _ :=
             (take4_append _ _ (by decide)).symm.trans
               (hd.symm ▸ take4_append _ ((toString n).data) (by decide))
           revert ht
           decide)
  subst hp
  refine ⟨rfl, ?_⟩
  exact toString_nat_data_inj (List.append_cancel_left hd)

/-! ## The label invariant and its preservation -/

theorem LabelInv_newLabel {st : CodeGenState} {pre : String}
    (hp : pre ∈ labelStems) (h : LabelInv st) : LabelInv (newLabel st pre).2 := by
  obtain ⟨hnd, hlen, hform⟩ := h
  have hnew : (pre ++ toString st.labelCounter) ∉ st.issuedLabels := by
    intro hmem
    obtain ⟨p, hpmem, k, hk, heq⟩ := hform _ hmem
    obtain ⟨hpp, hkk⟩ := stems_append_inj pre hp p hpmem _ _ heq
    omega
  refine ⟨?_, ?_, ?_⟩
  · simpa [newLabel, List.nodup_append] using ⟨hnd, hnew⟩
  · simp [newLabel, hlen]
  · intro l hl
    simp only [newLabel, List.mem_append, List.mem_singleton] at hl
    cases hl with
    | inl hold =>
        obtain ⟨p, hpmem, k, hk, heq⟩ := hform _ hold
        exact ⟨p, hpmem, k, by simp [newLabel]; omega, heq⟩
    | inr hnewl =>
        exact ⟨pre, hp, st.labelCounter, by simp [newLabel], hnewl⟩

theorem LabelInv_of_onlyOutput {st st' : CodeGenState}
    (ho : st' = { st with output := st'.output }) (h : LabelInv st) :
    LabelInv st' := by
  rw [ho]; exact h

theorem LabelStep.rfl (st : CodeGenState) : LabelStep st st :=
  ⟨Nat.le_refl _, id⟩

theorem LabelStep.trans {a b c' : CodeGenState}
    (h1 : LabelStep a b) (h2 : LabelStep b c') : LabelStep a c' :=
  ⟨le_trans h1.1 h2.1, fun h => h2.2 (h1.2 h)⟩

theorem LabelStep_newLabel (st : CodeGenState) (pre : String)
    (hp : pre ∈ labelStems) : LabelStep st (newLabel st pre).2 :=
  ⟨by simp [newLabel], LabelInv_newLabel hp⟩

theorem visitExpr_labelCounter (opt : Bool) (c : String → Option Int)
    (st : CodeGenState) (e : Expression) :
    (visitExpr opt c st e).labelCounter = st.labelCounter := by
  rw [visitExpr_onlyOutput opt c st e]

theorem LabelStep_visitExpr (opt : Bool) (c : String → Option Int)
    (st : CodeGenState) (e : Expression) :
    LabelStep st (visitExpr opt c st e) :=
  ⟨le_of_eq (visitExpr_labelCounter opt c st e).symm,
   LabelInv_of_onlyOutput (visitExpr_onlyOutput opt c st e)⟩

theorem LabelStep_to_emit {a b : CodeGenState} (i : Instr)
    (h : LabelStep a b) : LabelStep a (emit b i) := h

theorem LabelStep_to_emitLabel {a b : CodeGenState} (l : String)
    (h : LabelStep a b) : LabelStep a (emitLabel b l) := h

theorem LabelStep_to_generateEpilogue {a b : CodeGenState}
    (h : LabelStep a b) : LabelStep a (generateEpilogue b) := h

mutual
theorem visitStmt_labelStep (opt : Bool) (c : String → Option Int)
    (st : CodeGenState) (s : Statement) :
    LabelStep st (visitStmt opt c st s) := by
  cases s with
  | decl name initializer =>
      cases initializer with
      | some e => rw [visitStmt]; exact LabelStep_visitExpr opt c st e
      | none => rw [visitStmt]; exact LabelStep.rfl st
  | assign target value =>
      rw [visitStmt]
      split <;> exact LabelStep_visitExpr opt c st value
  | block statements =>
      rw [visitStmt]
      exact visitStmtList_labelStep opt c st statements
  | ifStmt condition thenStatement elseStatement =>
      rw [visitStmt]
      have s1 := LabelStep_newLabel st "else" (by simp [labelStems])
      have s2 := LabelStep.trans s1 (LabelStep_newLabel _ "endif" (by simp [labelStems]))
      have s3 := LabelStep.trans s2 (LabelStep_visitExpr opt c _ condition)
      have s4 := LabelStep_to_emit (.raw ("beqz t0, " ++ (newLabel st "else").1))
        (LabelStep_to_emit (.addiSp 4)
          (LabelStep_to_emit (.raw "lw t0, 0(sp)") s3))
      have s5 := LabelStep.trans s4 (visitStmt_labelStep opt c _ thenStatement)
      have s6 := LabelStep_to_emitLabel ((newLabel st "else").1)
        (LabelStep_to_emit
          (.raw ("j " ++ (newLabel (newLabel st "else").2 "endif").1)) s5)
      have s7 := LabelStep.trans s6 (visitStmtOpt_labelStep opt c _ elseStatement)
      exact LabelStep_to_emitLabel _ s7
  | whileStmt condition body =>
      rw [visitStmt]
      have s1 := LabelStep_newLabel st "loop" (by simp [labelStems])
      have s2 := LabelStep.trans s1 (LabelStep_newLabel _ "endloop" (by simp [labelStems]))
      have s3 := LabelStep_to_emitLabel ((newLabel st "loop").1) s2
      have s4 := LabelStep.trans s3 (LabelStep_visitExpr opt c _ condition)
      have s5 := LabelStep_to_emit
        (.raw ("beqz t0, " ++ (newLabel (newLabel st "loop").2 "endloop").1))
        (LabelStep_to_emit (.addiSp 4)
          (LabelStep_to_emit (.raw "lw t0, 0(sp)") s4))
      have s6 := LabelStep.trans s5 (visitStmt_labelStep opt c _ body)
      have s7 := LabelStep_to_emit (.raw ("j " ++ (newLabel st "loop").1)) s6
      exact LabelStep_to_emitLabel _ s7
  | breakStmt => rw [visitStmt]; exact LabelStep.rfl st
  | continueStmt => rw [visitStmt]; exact LabelStep.rfl st
  | returnStmt value =>
      cases value with
      | some e => rw [visitStmt]; exact LabelStep_visitExpr opt c st e
      | none => rw [visitStmt]; exact LabelStep.rfl st
  | exprStmt expression =>
      rw [visitStmt]
      exact LabelStep_visitExpr opt c st expression

theorem visitStmtOpt_labelStep (opt : Bool) (c : String → Option Int)
    (st : CodeGenState) (so : StatementOpt) :
    LabelStep st (visitStmtOpt opt c st so) := by
  cases so with
  | none => exact LabelStep.rfl st
  | some s => rw [visitStmtOpt]; exact visitStmt_labelStep opt c st s

theorem visitStmtList_labelStep (opt : Bool) (c : String → Option Int)
    (st : CodeGenState) (ss : StatementList) :
    LabelStep st (visitStmtList opt c st ss) := by
  cases ss with
  | nil => exact LabelStep.rfl st
  | cons s rest =>
      rw [visitStmtList]
      exact LabelStep.trans (visitStmt_labelStep opt c st s)
        (visitStmtList_labelStep opt c _ rest)
end

theorem visitFunctionDefinition_labelStep (opt : Bool)
    (c : String → Option Int) (st : CodeGenState) (node : FunctionDefinition) :
    LabelStep st (visitFunctionDefinition opt c st node) := by
  show LabelStep st (generateEpilogue (visitStmt opt c
    (generatePrologue
      { st with currentFunction := node.name, localVariables := [],
                stackOffset := 0 } node.name 8) node.body))
  refine LabelStep_to_generateEpilogue (LabelStep.trans ?_
    (visitStmt_labelStep opt c _ node.body))
  exact ⟨Nat.le_refl _, id⟩

theorem foldl_functions_labelStep (opt : Bool) (c : String → Option Int) :
    ∀ (fs : List FunctionDefinition) (st : CodeGenState),
      LabelStep st (List.foldl (visitFunctionDefinition opt c) st fs)
  | [], st => LabelStep.rfl st
  | f :: fs, st =>
      LabelStep.trans (visitFunctionDefinition_labelStep opt c st f)
        (foldl_functions_labelStep opt c fs _)

theorem generateRun_LabelInv (opt : Bool) (c : String → Option Int)
    (st : CodeGenState) (unit : CompilationUnit)
    (ftab : List (String × FunctionInfo)) :
    LabelInv (generateRun opt c st unit ftab) := by
  have h0 : LabelInv { st with
      output := [], functions := ftab, stackOffset := 0,
      labelCounter := 0, issuedLabels := [] } := by
    refine ⟨List.nodup_nil, Eq.refl 0, ?_⟩
    intro l hl
    simp at hl
  exact (foldl_functions_labelStep opt c unit.functions _).2 h0

/-- C1: the claim says that a binary expression whose operands do not trigger
a full fold and whose right operand matches no partial simplification — for
instance the literal-literal comparison `1 < 2` — falls through to the normal
lowering path and emits real operator code.  The code does not: `visit`
returns unconditionally after `optimizeConstantFolding`, which declines the
comparison, so with optimizations enabled lowering `1 < 2` emits nothing at
all and leaves the generator state untouched. -/
theorem claim1_comparison_emits_nothing (c : String → Option Int)
    (st : CodeGenState) :
    visitExpr true c st (.binary .lt (.num 1) (.num 2)) = st := rfl

/-- C2: the claim says a constant `div`/`mod` with zero divisor aborts the
fold and falls through to the normal non-folded path (pop, divide, push).
The code aborts the fold but emits nothing at all: the generator state is
returned untouched for `1 / 0` and `1 % 0` with optimizations enabled. -/
theorem claim2_div_zero_emits_nothing (c : String → Option Int)
    (st : CodeGenState) :
    visitExpr true c st (.binary .div (.num 1) (.num 0)) = st ∧
    visitExpr true c st (.binary .mod (.num 1) (.num 0)) = st :=
  ⟨rfl, rfl⟩

/-- C3 counterexample: the claim (zero net stack-pointer effect for every
lowered statement, with optimizations enabled or disabled) fails twice.
With optimizations enabled, the expression-statement `a + b;` emits only the
discarding `addi sp, sp, 4` (its expression emitted nothing), net +4.  With
optimizations disabled, a bare `return;` ends in the epilogue's
`addi sp, sp, 8`, net +8. -/
theorem claim3_counterexample :
    ¬ netSp (visitStmt true constNone initState
        (.exprStmt (.binary .add (.ident "a") (.ident "b")))).output
        = netSp initState.output ∧
    ¬ netSp (visitStmt false constNone initState
        (.returnStmt Option.none)).output
        = netSp initState.output := by
  constructor <;> decide

/-- C3 (amended): with optimizations disabled, every statement that contains
no `return` statement (whose lowering appends the epilogue's frame release)
lowers to code whose stack-pointer adjustments cancel out exactly;
in particular expression-statements discard the one word their expression
pushed.  With optimizations enabled the binary-expression defect (C1/C2)
breaks the invariant. -/
theorem claim3_stmt_zero_net_sp (c : String → Option Int) (st : CodeGenState)
    (s : Statement) (h : noReturn s = true) :
    netSp (visitStmt false c st s).output = netSp st.output :=
  visitStmt_netSp c st s h

/-- C3 witness: the amended theorem applied to the statement `1;`. -/
theorem claim3_witness :
    noReturn (.exprStmt (.num 1)) = true ∧
    netSp (visitStmt false constNone initState (.exprStmt (.num 1))).output
      = netSp initState.output :=
  ⟨by decide, claim3_stmt_zero_net_sp constNone initState _ (by decide)⟩

/-- C4: folding `a op b` for `op ∈ {add, sub, mul, div, mod}` (divisor
nonzero for `div`/`mod`) with optimizations enabled emits exactly a load
of the immediate `specFoldValue op a b` — the ordinary-integer-arithmetic
result, truncating division as C++ does — followed by one push. -/
theorem claim4_full_fold (a b : Int) (op : BinOp) (c : String → Option Int)
    (st : CodeGenState)
    (hop : op = .add ∨ op = .sub ∨ op = .mul ∨
      ((op = .div ∨ op = .mod) ∧ b ≠ 0)) :
    visitExpr true c st (.binary op (.num a) (.num b))
      = { st with output := st.output ++
          [.raw ("li t0, " ++ toString (specFoldValue op a b)),
           .addiSp (-4), .raw "sw t0, 0(sp)"] } := by
  rcases hop with rfl | rfl | rfl | ⟨h2, hb⟩
  · simp [visitExpr, emit, specFoldValue, isConstantExpression,
      evaluateConstantExpression]
  · simp [visitExpr, emit, specFoldValue, isConstantExpression,
      evaluateConstantExpression]
  · simp [visitExpr, emit, specFoldValue, isConstantExpression,
      evaluateConstantExpression]
  · rcases h2 with rfl | rfl <;>
      simp [visitExpr, emit, specFoldValue, isConstantExpression,
        evaluateConstantExpression, hb]

/-- C4 witness: `7 / 2` folds to the single immediate push of 3. -/
theorem claim4_witness :
    (2 : Int) ≠ 0 ∧
    toString (specFoldValue .div 7 2) = "3" ∧
    visitExpr true constNone initState (.binary .div (.num 7) (.num 2))
      = { initState with output := initState.output ++
          [.raw ("li t0, " ++ toString (specFoldValue .div 7 2)),
           .addiSp (-4), .raw "sw t0, 0(sp)"] } :=
  ⟨by decide, by decide,
   claim4_full_fold 7 2 .div constNone initState
     (Or.inr (Or.inr (Or.inr ⟨Or.inl rfl, by decide⟩)))⟩

/-- C5: lowering `x * 0` with optimizations enabled emits only the
immediate-zero load and one push, for every shape of `x` (whether or not `x`
is itself constant): `x` is never lowered, so its side effects are dropped. -/
theorem claim5_mul_zero (c : String → Option Int) (st : CodeGenState)
    (x : Expression) :
    visitExpr true c st (.binary .mul x (.num 0))
      = { st with output := st.output ++
          [.raw "li t0, 0", .addiSp (-4), .raw "sw t0, 0(sp)"] } := by
  rw [visitExpr]
  cases h : isConstantExpression c (Option.some x) <;>
    simp [h, emit, isConstantExpression, evaluateConstantExpression,
      Int.mul_zero, show toString (0 : Int) = "0" from rfl]

/-- C6 counterexample: for `x` an identifier bound in the known-constants
table (here `k ↦ 5`), lowering `x + 0` emits an immediate load of the
constant while lowering `x` alone emits an address load and dereference —
different instruction sequences, refuting the claim as stated. -/
theorem claim6_counterexample :
    ¬ (visitExpr true constK initState
        (.binary .add (.ident "k") (.num 0))).output
      = (visitExpr true constK initState (.ident "k")).output := by
  decide

/-- C6 (amended): for every expression `x` that is not an identifier present
in the known-constants table, lowering `x + 0` or `x * 1` with optimizations
enabled produces exactly the same generator state — hence the same emitted
instruction sequence — as lowering `x` alone.  (For a known-constant
identifier the full fold replaces the variable load with an immediate.) -/
theorem claim6_identity_fold (c : String → Option Int) (st : CodeGenState)
    (x : Expression) (h : knownConstIdent c x = false) :
    visitExpr true c st (.binary .add x (.num 0)) = visitExpr true c st x ∧
    visitExpr true c st (.binary .mul x (.num 1)) = visitExpr true c st x := by
  cases x with
  | num v =>
      constructor <;>
        simp [visitExpr, emit, isConstantExpression, evaluateConstantExpression]
  | ident n =>
      have hc : c n = Option.none := by
        simp only [knownConstIdent] at h
        cases hcn : c n with
        | none => rfl
        | some v => rw [hcn] at h; simp at h
      constructor <;>
        simp [visitExpr, isConstantExpression, hc, evaluateConstantExpression]
  | unary op operand =>
      constructor <;>
        simp [visitExpr, isConstantExpression, evaluateConstantExpression]
  | binary op l r =>
      constructor <;>
        simp [visitExpr, isConstantExpression, evaluateConstantExpression]
  | call f args =>
      constructor <;>
        simp [visitExpr, isConstantExpression, evaluateConstantExpression]

/-- C6 witness: for the free identifier `v` (not a known constant), `v + 0`
and `v * 1` lower exactly as `v` does. -/
theorem claim6_witness :
    knownConstIdent constNone (.ident "v") = false ∧
    visitExpr true constNone initState (.binary .add (.ident "v") (.num 0))
      = visitExpr true constNone initState (.ident "v") ∧
    visitExpr true constNone initState (.binary .mul (.ident "v") (.num 1))
      = visitExpr true constNone initState (.ident "v") :=
  ⟨rfl,
   (claim6_identity_fold constNone initState (.ident "v") rfl).1,
   (claim6_identity_fold constNone initState (.ident "v") rfl).2⟩

/-- C7: within one generation run every `newLabel` call returns a name
distinct from every previously issued one (the issued-label history of a full
`generate` run is pairwise distinct), the underlying counter counts exactly
the issued labels and each call returns `stem ++ counter` while bumping the
counter by one (so it strictly increases and never repeats), lowering never
decreases the counter, and the counter (with the issued-label history) is
reset to zero exactly at the start of a fresh `generate` call, regardless of
the incoming state. -/
theorem claim7_label_uniqueness :
    (∀ (opt : Bool) (c : String → Option Int) (st : CodeGenState)
        (unit : CompilationUnit) (ftab : List (String × FunctionInfo)),
        ((generateRun opt c st unit ftab).issuedLabels).Nodup ∧
        (generateRun opt c st unit ftab).issuedLabels.length
          = (generateRun opt c st unit ftab).labelCounter) ∧
    (∀ (st : CodeGenState) (pre : String),
        (newLabel st pre).1 = pre ++ toString st.labelCounter ∧
        (newLabel st pre).2.labelCounter = st.labelCounter + 1 ∧
        (newLabel st pre).2.issuedLabels
          = st.issuedLabels ++ [pre ++ toString st.labelCounter]) ∧
    (∀ (opt : Bool) (c : String → Option Int) (st : CodeGenState)
        (s : Statement),
        st.labelCounter ≤ (visitStmt opt c st s).labelCounter) ∧
    (∀ (opt : Bool) (c : String → Option Int) (st : CodeGenState)
        (unit : CompilationUnit) (ftab : List (String × FunctionInfo))
        (n : Nat) (ls : List String),
        generateRun opt c st unit ftab
          = generateRun opt c
              { st with labelCounter := n, issuedLabels := ls } unit ftab) := by
  refine ⟨fun opt c st unit ftab => ?_, fun st pre => ⟨rfl, rfl, rfl⟩,
    fun opt c st s => (visitStmt_labelStep opt c st s).1,
    fun opt c st unit ftab n ls => rfl⟩
  have h := generateRun_LabelInv opt c st unit ftab
  exact ⟨h.1, h.2.1⟩

/-- C8: every `break` lowers to the single jump `j break_label` and every
`continue` to the single jump `j continue_label`, in every generator state
(hence at every loop and nesting depth, with or without optimizations):
the target names are fixed, not the enclosing loop's labels. -/
theorem claim8_fixed_jump_targets (opt : Bool) (c : String → Option Int)
    (st : CodeGenState) :
    visitStmt opt c st .breakStmt
      = { st with output := st.output ++ [.raw "j break_label"] } ∧
    visitStmt opt c st .continueStmt
      = { st with output := st.output ++ [.raw "j continue_label"] } :=
  ⟨rfl, rfl⟩

/-- C9: on the non-folded path, logical `and`/`or` lower both operands in
full (no short-circuit: the operand code always runs) followed by the single
bitwise instruction; and the bitwise meaning of the emitted `and` sends the
truthy pair (1, 2) — disjoint bit patterns — to 0. -/
theorem claim9_bitwise_and_or (c : String → Option Int) (st : CodeGenState)
    (x y : Expression) :
    visitExpr false c st (.binary .and x y)
      = emit (emit (emit (emit (emit
          (visitExpr false c (visitExpr false c st x) y)
          (.raw "lw t1, 0(sp)")) (.addiSp 4)) (.raw "lw t0, 0(sp)"))
          (.raw "and t0, t0, t1")) (.raw "sw t0, 0(sp)") ∧
    visitExpr false c st (.binary .or x y)
      = emit (emit (emit (emit (emit
          (visitExpr false c (visitExpr false c st x) y)
          (.raw "lw t1, 0(sp)")) (.addiSp 4)) (.raw "lw t0, 0(sp)"))
          (.raw "or t0, t0, t1")) (.raw "sw t0, 0(sp)") ∧
    riscvAnd 1 2 = 0 ∧ (1 : Int) ≠ 0 ∧ (2 : Int) ≠ 0 :=
  ⟨rfl, rfl, by decide, by decide, by decide⟩

/-- C9 witness: the lowering shape at the concrete operand pair (1, 2), and
the emitted `and` sending that truthy pair to 0. -/
theorem claim9_witness :
    visitExpr false constNone initState (.binary .and (.num 1) (.num 2))
      = emit (emit (emit (emit (emit
          (visitExpr false constNone
            (visitExpr false constNone initState (.num 1)) (.num 2))
          (.raw "lw t1, 0(sp)")) (.addiSp 4)) (.raw "lw t0, 0(sp)"))
          (.raw "and t0, t0, t1")) (.raw "sw t0, 0(sp)") ∧
    riscvAnd 1 2 = 0 :=
  ⟨(claim9_bitwise_and_or constNone initState (.num 1) (.num 2)).1,
   (claim9_bitwise_and_or constNone initState (.num 1) (.num 2)).2.2.1⟩

/-- C10: the constant evaluator is total, including on null pointers:
`isConstantExpression` rejects null and everything that is neither a numeric
literal nor a known-constant identifier, and `evaluateConstantExpression`
returns 0 on every rejected input. -/
theorem claim10_constant_evaluator_total (c : String → Option Int) :
    isConstantExpression c Option.none = false ∧
    evaluateConstantExpression c Option.none = 0 ∧
    (∀ e : Option Expression, isConstantExpression c e = false →
        evaluateConstantExpression c e = 0) ∧
    (∀ e : Expression, isConstantExpression c (Option.some e) = true ↔
        ((∃ v, e = .num v) ∨ (∃ n, e = .ident n ∧ (c n).isSome))) := by
  refine ⟨rfl, rfl, ?_, ?_⟩
  · intro e h
    match e with
    | Option.none => rfl
    | Option.some (.num v) => simp [isConstantExpression] at h
    | Option.some (.ident n) =>
        simp only [isConstantExpression, Option.isSome] at h
        cases hc : c n with
        | none => simp [evaluateConstantExpression, hc]
        | some v => rw [hc] at h; simp at h
    | Option.some (.unary op operand) => rfl
    | Option.some (.binary op l r) => rfl
    | Option.some (.call f args) => rfl
  · intro e
    match e with
    | .num v => simp [isConstantExpression]
    | .ident n => simp [isConstantExpression]
    | .unary op operand => simp [isConstantExpression]
    | .binary op l r => simp [isConstantExpression]
    | .call f args => simp [isConstantExpression]

/-- C10 witness: a non-constant shape (a call) evaluates to the sentinel 0. -/
theorem claim10_witness :
    isConstantExpression constNone (Option.some (.call "f" .nil)) = false ∧
    evaluateConstantExpression constNone (Option.some (.call "f" .nil)) = 0 :=
  ⟨rfl, (claim10_constant_evaluator_total constNone).2.2.1 _ rfl⟩

end ToyC
